import Mathlib

/-!
Verification of the input-validation logic of
`src/manager/director/apps/sites/forms.py` (TJHSST Director 4.0 manager),
shallowly embedded in Lean 4.

Strings are modelled as Lean `String`s, handled through their underlying
character lists (`String.data`).  Regex validators are embedded as
executable character-list scanners translated from the concrete regexes in
the source; Django's field-validation pipeline (required / max_length /
validators, with validators skipped on the empty value of an optional
field) is modelled explicitly for each field.  Whitespace is modelled as
ASCII whitespace (the characters Python's `str.split` and `\s` treat as
whitespace in the ASCII range).
-/

namespace Director.SitesForms

/-- ASCII whitespace, as recognised by Python's `str.split()` / `str.strip()`
and by `\s` on ASCII input. -/
def isPySpace (c : Char) : Bool :=
  c == ' ' || c == '\t' || c == '\n' || c == '\r' || c == '\x0b' || c == '\x0c'

/-- The character class `[a-z]`. -/
def isLowerAlpha (c : Char) : Bool := 'a' ≤ c && c ≤ 'z'

/-- The character class `[A-Z]`. -/
def isUpperAlpha (c : Char) : Bool := 'A' ≤ c && c ≤ 'Z'

/-- The character class `[0-9]`. -/
def isDigitChar (c : Char) : Bool := '0' ≤ c && c ≤ '9'

/-- Python `str.endswith`, on character lists. -/
def pyEndsWith (l suffix : List Char) : Bool := suffix.isSuffixOf l

/- ------------------------------------------------------------------
`DomainForm` (forms.py lines 59-86).

Field `domain`: `CharField(max_length=255, required=False)` with the
validator
  `RegexValidator(regex=r"^(?!(.*\.)?sites\.tjhsst\.edu$)[0-9a-zA-Z_\- .]+$")`.
`DomainForm.clean` then adds an error on `domain` when the submitting user
is not a superuser and the (field-clean) domain ends with `"tjhsst.edu"`.
------------------------------------------------------------------ -/

/-- The character class `[0-9a-zA-Z_\- .]` of the domain regex. -/
def isDomainChar (c : Char) : Bool :=
  isDigitChar c || isLowerAlpha c || isUpperAlpha c ||
    c == '_' || c == '-' || c == ' ' || c == '.'

/-- The strings matched by the anchored lookahead pattern
`(.*\.)?sites\.tjhsst\.edu$`: exactly `"sites.tjhsst.edu"` itself and every
string ending in `".sites.tjhsst.edu"`. -/
def reservedSitesDomain (l : List Char) : Bool :=
  l == "sites.tjhsst.edu".data || pyEndsWith l ".sites.tjhsst.edu".data

/-- Full match of `^(?!(.*\.)?sites\.tjhsst\.edu$)[0-9a-zA-Z_\- .]+$`:
a nonempty string over the class `[0-9a-zA-Z_\- .]` that is not excluded by
the negative lookahead. -/
def domainRegexMatch (l : List Char) : Bool :=
  !l.isEmpty && l.all isDomainChar && !reservedSitesDomain l

/-- Field-level cleaning of `domain` succeeds: the field is optional so the
empty value skips validators; otherwise `MaxLengthValidator(255)` and the
regex validator must pass. -/
def domainFieldOk (s : String) : Bool :=
  s.data.isEmpty || (s.data.length ≤ 255 && domainRegexMatch s.data)

/-- The error added by `DomainForm.clean`: the user is not a superuser, the
field survived field-level cleaning (so `"domain" in cleaned_data`), and
the value ends with `"tjhsst.edu"`. -/
def domainCleanError (userIsSuperuser : Bool) (s : String) : Bool :=
  !userIsSuperuser && domainFieldOk s && pyEndsWith s.data "tjhsst.edu".data

/-- Some error is recorded on the `domain` field after full validation. -/
def domainHasError (userIsSuperuser : Bool) (s : String) : Bool :=
  !domainFieldOk s || domainCleanError userIsSuperuser s

/-- The submitted domain is accepted (no error on the field). -/
def domainAccepted (userIsSuperuser : Bool) (s : String) : Bool :=
  !domainHasError userIsSuperuser s

/- ------------------------------------------------------------------
`SiteNamesForm` (forms.py lines 39-52).

Field `name`: `CharField(max_length=32)` with `MinLengthValidator(2)` and
`RegexValidator(regex=r"^[a-z0-9]+(-[a-z0-9]+)*$")`.
------------------------------------------------------------------ -/

/-- The character class `[a-z0-9]` of the site-name regex. -/
def isNameChar (c : Char) : Bool := isLowerAlpha c || isDigitChar c

/-- Scanner for the anchored regex `^[a-z0-9]+(-[a-z0-9]+)*$`.  The Boolean
state records whether the next character must open a fresh `[a-z0-9]+`
group (true at the start of the string and right after a dash). -/
def nameScan : Bool → List Char → Bool
  | needGroup, [] => !needGroup
  | needGroup, c :: rest =>
    if isNameChar c then nameScan false rest
    else if c == '-' && !needGroup then nameScan true rest
    else false

/-- Full match of `^[a-z0-9]+(-[a-z0-9]+)*$`. -/
def nameRegexMatch (s : String) : Bool := nameScan true s.data

/-- Field-level validation of `name`: `MinLengthValidator(2)`, the
`max_length=32` bound and the regex validator all pass.  (The field is
required, but the empty string already fails the minimum length.) -/
def nameFieldAccepts (s : String) : Bool :=
  decide (2 ≤ s.data.length) && decide (s.data.length ≤ 32) && nameRegexMatch s

/-- No two consecutive dashes occur in the list. -/
def noDoubleDash : List Char → Bool
  | c1 :: c2 :: rest => !(c1 == '-' && c2 == '-') && noDoubleDash (c2 :: rest)
  | _ => true

/-- Spec-side reading of the site-name shape (from the specification's
words): nonempty, only lowercase alphanumerics and dashes (in particular no
uppercase letters and no other characters), no leading dash, no trailing
dash, and no two consecutive dashes. -/
def nameSpec (l : List Char) : Prop :=
  l ≠ [] ∧ (∀ c ∈ l, isNameChar c = true ∨ c = '-') ∧
    l.head? ≠ some '-' ∧ l.getLast? ≠ some '-' ∧ noDoubleDash l = true

/- ------------------------------------------------------------------
`ImageSelectForm` (forms.py lines 110-143).

`ImageSelectForm.clean` takes `cleaned_data["packages"]` (a `CharField`
with `required=False` and no validators, so always present), strips it,
splits it on runs of whitespace (Python `str.split()` with no argument),
and adds an error on `packages` when some token is longer than
`DockerImageExtraPackage._meta.get_field("name").max_length`.  That model
constant lives outside this excerpt, so it is kept as a parameter. -/

/-- Python `str.split()` with no separator: the accumulator holds the
current (reversed) token; whitespace ends a token, and empty tokens are
never emitted. -/
def pySplitAux : List Char → List Char → List (List Char)
  | [], acc => if acc.isEmpty then [] else [acc.reverse]
  | c :: rest, acc =>
    if isPySpace c then
      if acc.isEmpty then pySplitAux rest [] else acc.reverse :: pySplitAux rest []
    else pySplitAux rest (c :: acc)

/-- Python `str.split()` with no separator, on character lists. -/
def pySplit (l : List Char) : List (List Char) := pySplitAux l []

/-- Python `str.strip()` with no argument: drop leading and trailing
whitespace. -/
def pyStrip (l : List Char) : List Char :=
  ((l.dropWhile isPySpace).reverse.dropWhile isPySpace).reverse

/-- The error added by `ImageSelectForm.clean` on `packages`: some token of
`cleaned_data["packages"].strip().split()` is strictly longer than the
`max_length` of the `DockerImageExtraPackage` name field. -/
def packagesCleanError (maxPackageNameLength : Nat) (s : String) : Bool :=
  (pySplit (pyStrip s.data)).any fun t => decide (maxPackageNameLength < t.length)

/- ------------------------------------------------------------------
`SiteResourceLimitsForm` (forms.py lines 146-168).

Field `cpus`: `FloatField(required=False, min_value=0, max_value=3)`.
Blank input is accepted (modelled as `none`); a submitted number is
modelled as an exact rational, and `MinValueValidator(0)` /
`MaxValueValidator(3)` reject values `< 0` / `> 3`.

Field `mem_limit`: `CharField(required=False, max_length=10)` with
`RegexValidator(regex=r"^(\d+(\s*[KMG]i?B)?)?$")`.
------------------------------------------------------------------ -/

/-- Validation of the `cpus` field. -/
def cpusFieldAccepts (v : Option ℚ) : Bool :=
  match v with
  | none => true
  | some x => decide (0 ≤ x) && decide (x ≤ 3)

/-- The six memory-unit suffixes matched by `[KMG]i?B`. -/
def memSuffix (l : List Char) : Bool :=
  l == ['K', 'B'] || l == ['M', 'B'] || l == ['G', 'B'] ||
    l == ['K', 'i', 'B'] || l == ['M', 'i', 'B'] || l == ['G', 'i', 'B']

/-- Full match of `^(\d+(\s*[KMG]i?B)?)?$`: the empty string, or a nonempty
run of digits followed by nothing or by optional whitespace and exactly one
unit suffix.  (`\d+` can be taken greedily because neither `\s` nor `[KMG]`
matches a digit.) -/
def memRegexMatch (l : List Char) : Bool :=
  l.isEmpty ||
    (!(l.takeWhile isDigitChar).isEmpty &&
      ((l.dropWhile isDigitChar).isEmpty ||
        memSuffix ((l.dropWhile isDigitChar).dropWhile isPySpace)))

/-- Field-level validation of `mem_limit`: the `max_length=10` bound and
the regex validator.  (The field is optional and the empty value skips the
validators, but the regex accepts the empty string anyway.) -/
def memLimitAccepts (s : String) : Bool :=
  decide (s.data.length ≤ 10) && memRegexMatch s.data

/-- Spec-side reading of the memory-limit shape (from the specification's
words): empty, or a nonempty digit sequence followed by nothing or by
whitespace and one of the six suffixes. -/
def memSpecProp (l : List Char) : Prop :=
  l = [] ∨
    ∃ ds rest, l = ds ++ rest ∧ ds ≠ [] ∧ (∀ c ∈ ds, isDigitChar c = true) ∧
      (rest = [] ∨
        ∃ ws suf, rest = ws ++ suf ∧ (∀ c ∈ ws, isPySpace c = true) ∧
          memSuffix suf = true)

end Director.SitesForms

namespace Director.SitesForms

/-- C7 -- The non-superuser restriction in `DomainForm.clean` is a plain
string-suffix test: every domain whose characters end with the substring
`"tjhsst.edu"` draws an error for a non-superuser, including
`"nottjhsst.edu"`, which is not a subdomain of `tjhsst.edu` (it is neither
equal to `"tjhsst.edu"` nor ends with `".tjhsst.edu"`). -/
theorem domain_suffix_test_not_label_test :
    (∀ s : String, pyEndsWith s.data "tjhsst.edu".data = true →
      domainHasError false s = true) ∧
    (domainHasError false "nottjhsst.edu" = true ∧
      "nottjhsst.edu" ≠ "tjhsst.edu" ∧
      pyEndsWith "nottjhsst.edu".data ".tjhsst.edu".data = false) := by
  constructor
  · intro s hsuf
    unfold domainHasError domainCleanError
    cases hok : domainFieldOk s <;> simp [hsuf]
  · refine ⟨by decide, by decide, by decide⟩

/-- C7 witness: the suffix test fires on the concrete non-subdomain
`"nottjhsst.edu"`. -/
theorem domain_suffix_test_not_label_test_witness :
    pyEndsWith "nottjhsst.edu".data "tjhsst.edu".data = true ∧
      domainHasError false "nottjhsst.edu" = true :=
  ⟨by decide, domain_suffix_test_not_label_test.1 "nottjhsst.edu" (by decide)⟩

/-- C3 -- For every user (superusers included) the domain
`"sites.tjhsst.edu"` and every domain ending in `".sites.tjhsst.edu"` is
rejected: the field-level regex excludes those strings unconditionally, and
`clean` only ever adds errors, so the privilege exemption never admits
them. -/
theorem reserved_sites_domain_always_rejected
    (su : Bool) (s : String)
    (h : s = "sites.tjhsst.edu" ∨
      pyEndsWith s.data ".sites.tjhsst.edu".data = true) :
    domainAccepted su s = false := by
  have hres : reservedSitesDomain s.data = true := by
    unfold reservedSitesDomain
    rcases h with h | h
    · subst h; decide
    · simp [h]
  have hne : s.data.isEmpty = false := by
    rcases h with h | h
    · subst h; decide
    · rcases List.isSuffixOf_iff_suffix.mp h with ⟨t, ht⟩
      cases hd : s.data with
      | nil => rw [hd] at ht; simp at ht
      | cons c cs => simp [List.isEmpty]
  unfold domainAccepted domainHasError domainFieldOk domainRegexMatch
  simp [hne, hres]

/-- C3 witness: a superuser submitting `"sites.tjhsst.edu"` is rejected. -/
theorem reserved_sites_domain_always_rejected_witness :
    domainAccepted true "sites.tjhsst.edu" = false :=
  reserved_sites_domain_always_rejected true "sites.tjhsst.edu"
    (Or.inl rfl)

/-- C1 counterexample: the claim "if the user is a superuser, a domain
ending with the reserved suffix is accepted" fails at `"sites.tjhsst.edu"`,
which ends with `"tjhsst.edu"` yet is rejected even for a superuser (by the
field-level regex). -/
theorem domain_superuser_claim_counterexample :
    pyEndsWith "sites.tjhsst.edu".data "tjhsst.edu".data = true ∧
      domainAccepted true "sites.tjhsst.edu" = false := by
  constructor
  · decide
  · decide

/-- C1 (amended) -- For every non-superuser, a domain ending with
`"tjhsst.edu"` always draws an error on the domain field; for a superuser
no suffix-based error is ever added by `clean`, so a domain ending with the
reserved suffix is accepted exactly when it passes field-level validation
(the regex, which unconditionally excludes `sites.tjhsst.edu` and its
subdomains, and the 255-character limit). -/
theorem domain_reserved_suffix_validation (s : String) :
    (pyEndsWith s.data "tjhsst.edu".data = true →
      domainHasError false s = true) ∧
    (domainAccepted true s = domainFieldOk s) := by
  constructor
  · intro hsuf
    unfold domainHasError domainCleanError
    cases hok : domainFieldOk s <;> simp [hsuf]
  · unfold domainAccepted domainHasError domainCleanError
    cases hok : domainFieldOk s <;> simp

/-- C1 witness: the non-superuser suffix rule fires on `"mysite.tjhsst.edu"`
(a domain that passes field-level validation), and the same domain is
accepted for a superuser. -/
theorem domain_reserved_suffix_validation_witness :
    domainHasError false "mysite.tjhsst.edu" = true ∧
      domainAccepted true "mysite.tjhsst.edu" = domainFieldOk "mysite.tjhsst.edu" :=
  ⟨(domain_reserved_suffix_validation "mysite.tjhsst.edu").1 (by decide),
    (domain_reserved_suffix_validation "mysite.tjhsst.edu").2⟩

theorem isNameChar_ne_dash {c : Char} (h : isNameChar c = true) : c ≠ '-' := by
  intro hc
  subst hc
  exact absurd h (by decide)

/-- Both states of the `nameScan` automaton, characterised: state `false`
(inside a group) accepts exactly the dash-and-alphanumeric strings with no
double dash and no trailing dash; state `true` (a fresh group is required)
accepts exactly `nameSpec`. -/
theorem nameScan_spec (l : List Char) :
    (nameScan false l = true ↔
      ((∀ c ∈ l, isNameChar c = true ∨ c = '-') ∧
        l.getLast? ≠ some '-' ∧ noDoubleDash l = true)) ∧
    (nameScan true l = true ↔ nameSpec l) := by
  induction l with
  | nil =>
    constructor
    · simp [nameScan, noDoubleDash]
    · simp [nameScan, nameSpec]
  | cons c rest ih =>
    by_cases hc : isNameChar c = true
    · have hcd : c ≠ '-' := isNameChar_ne_dash hc
      cases rest with
      | nil =>
        constructor
        · simp [nameScan, hc, noDoubleDash, hcd]
        · simp [nameScan, nameSpec, hc, noDoubleDash, hcd]
      | cons c2 t =>
        constructor
        · have h1 : nameScan false (c :: c2 :: t) = nameScan false (c2 :: t) := by
            simp [nameScan, hc]
          rw [h1, ih.1]
          simp [noDoubleDash, List.getLast?_cons_cons, hc, hcd]
        · have h1 : nameScan true (c :: c2 :: t) = nameScan false (c2 :: t) := by
            simp [nameScan, hc]
          rw [h1, ih.1]
          simp [nameSpec, noDoubleDash, List.getLast?_cons_cons, hc, hcd]
    · by_cases hd : c = '-'
      · subst hd
        have hn : isNameChar '-' = false := by decide
        cases rest with
        | nil =>
          constructor
          · have h1 : nameScan false ['-'] = nameScan true [] := by
              simp [nameScan, hn]
            simp [h1, nameScan, hn]
          · simp [nameScan, nameSpec, hn]
        | cons c2 t =>
          constructor
          · have h1 : nameScan false ('-' :: c2 :: t) = nameScan true (c2 :: t) := by
              simp [nameScan, hn]
            rw [h1, ih.2]
            simp [nameSpec, noDoubleDash, List.getLast?_cons_cons, hn]
            all_goals tauto
          · have h1 : nameScan true ('-' :: c2 :: t) = false := by
              simp [nameScan, hn]
            simp [h1, nameSpec]
      · constructor
        · have h1 : nameScan false (c :: rest) = false := by
            simp [nameScan, hc, hd]
          simp only [h1, Bool.false_eq_true, false_iff]
          rintro ⟨hchars, -, -⟩
          rcases hchars c (by simp) with h | h
          · exact absurd h hc
          · exact absurd h hd
        · have h1 : nameScan true (c :: rest) = false := by
            simp [nameScan, hc, hd]
          simp only [h1, Bool.false_eq_true, false_iff, nameSpec]
          rintro ⟨-, hchars, -, -, -⟩
          rcases hchars c (by simp) with h | h
          · exact absurd h hc
          · exact absurd h hd

/-- C2 -- The site name validator accepts a string exactly when its length
is between 2 and 32 characters inclusive and it matches
`^[a-z0-9]+(-[a-z0-9]+)*$`, i.e. it is a nonempty string of lowercase
alphanumerics and dashes with no leading dash, no trailing dash, no two
consecutive dashes, and no other characters. -/
theorem name_validator_characterization (s : String) :
    nameFieldAccepts s = true ↔
      2 ≤ s.data.length ∧ s.data.length ≤ 32 ∧ nameSpec s.data := by
  unfold nameFieldAccepts nameRegexMatch
  rw [Bool.and_eq_true, Bool.and_eq_true, (nameScan_spec s.data).2]
  simp [and_assoc]

/-- C8 -- The site name validator accepts names beginning with a digit:
for every digit `c`, the two-character name `[c, 'a']` (for example
`"0a"`) passes validation, even though the `SiteCreateForm` help text says
names cannot start with a number. -/
theorem name_validator_accepts_leading_digit (c : Char)
    (h : isDigitChar c = true) :
    nameFieldAccepts ⟨[c, 'a']⟩ = true := by
  have h2 : nameScan false ['a'] = true := by decide
  have ha : isLowerAlpha 'a' = true := by decide
  simp [nameFieldAccepts, nameRegexMatch, nameScan, isNameChar, h, h2, ha]

/-- C8 witness: `"0a"` is accepted. -/
theorem name_validator_accepts_leading_digit_witness :
    isDigitChar '0' = true ∧ nameFieldAccepts ⟨['0', 'a']⟩ = true :=
  ⟨by decide, name_validator_accepts_leading_digit '0' (by decide)⟩

/-- Every token emitted by `pySplitAux` is nonempty and whitespace-free,
provided the running accumulator is whitespace-free. -/
theorem pySplitAux_tokens (l : List Char) :
    ∀ acc, (∀ c ∈ acc, isPySpace c = false) →
      ∀ t ∈ pySplitAux l acc, t ≠ [] ∧ ∀ c ∈ t, isPySpace c = false := by
  induction l with
  | nil =>
    intro acc hacc t ht
    cases acc with
    | nil => simp [pySplitAux] at ht
    | cons a as =>
      simp [pySplitAux] at ht
      subst ht
      refine ⟨by simp, ?_⟩
      intro c hc
      apply hacc c
      have h' : c ∈ as ∨ c = a := by simpa using hc
      rcases h' with h' | rfl
      · exact List.mem_cons_of_mem a h'
      · exact List.mem_cons_self _ _
  | cons c rest ih =>
    intro acc hacc t ht
    by_cases hsp : isPySpace c = true
    · cases acc with
      | nil =>
        rw [show pySplitAux (c :: rest) [] = pySplitAux rest [] from by
          simp [pySplitAux, hsp]] at ht
        exact ih [] (by simp) t ht
      | cons a as =>
        rw [show pySplitAux (c :: rest) (a :: as) =
            (a :: as).reverse :: pySplitAux rest [] from by
          simp [pySplitAux, hsp]] at ht
        rcases List.mem_cons.mp ht with rfl | ht'
        · refine ⟨by simp, ?_⟩
          intro ch hch
          apply hacc ch
          have h' : ch ∈ as ∨ ch = a := by simpa using hch
          rcases h' with h' | rfl
          · exact List.mem_cons_of_mem a h'
          · exact List.mem_cons_self _ _
        · exact ih [] (by simp) t ht'
    · rw [show pySplitAux (c :: rest) acc = pySplitAux rest (c :: acc) from by
        simp [pySplitAux, hsp]] at ht
      refine ih (c :: acc) ?_ t ht
      intro ch hch
      rcases List.mem_cons.mp hch with rfl | hch'
      · simpa using hsp
      · exact hacc ch hch'

/-- Stripping a whitespace-only string yields the empty string. -/
theorem pyStrip_eq_nil_of_all_space {l : List Char}
    (h : ∀ c ∈ l, isPySpace c = true) : pyStrip l = [] := by
  unfold pyStrip
  have h1 : l.dropWhile isPySpace = [] := List.dropWhile_eq_nil_iff.mpr h
  simp [h1]

/-- C4 -- `ImageSelectForm.clean` strips the packages string, splits it on
runs of whitespace, and errors exactly when some resulting token is
strictly longer than the maximum package-name length; the tokens are always
nonempty and whitespace-free, and a whitespace-only (or empty) packages
string never produces the error. -/
theorem packages_validation (maxLen : Nat) (s : String) :
    (packagesCleanError maxLen s = true ↔
      ∃ t ∈ pySplit (pyStrip s.data), maxLen < t.length) ∧
    (∀ t ∈ pySplit (pyStrip s.data), t ≠ [] ∧ ∀ c ∈ t, isPySpace c = false) ∧
    ((∀ c ∈ s.data, isPySpace c = true) → packagesCleanError maxLen s = false) := by
  refine ⟨?_, ?_, ?_⟩
  · simp [packagesCleanError]
  · exact pySplitAux_tokens (pyStrip s.data) [] (by simp)
  · intro h
    simp [packagesCleanError, pyStrip_eq_nil_of_all_space h, pySplit, pySplitAux]

/-- C4 witness: a whitespace-only packages string never errors. -/
theorem packages_validation_witness :
    packagesCleanError 2 "  " = false :=
  (packages_validation 2 "  ").2.2 (by decide)

/-- C6 -- The `cpus` field accepts a submission exactly when it is blank or
a number `v` with `0 ≤ v ≤ 3`, and every value strictly below `0` or
strictly above `3` is rejected. -/
theorem cpus_bounds (v : Option ℚ) :
    (cpusFieldAccepts v = true ↔
      v = none ∨ ∃ x, v = some x ∧ 0 ≤ x ∧ x ≤ 3) ∧
    (∀ x : ℚ, (x < 0 ∨ 3 < x) → cpusFieldAccepts (some x) = false) := by
  have key : ∀ w : Option ℚ, cpusFieldAccepts w = true ↔
      (w = none ∨ ∃ x, w = some x ∧ 0 ≤ x ∧ x ≤ 3) := by
    intro w
    cases w with
    | none => simp [cpusFieldAccepts]
    | some x => simp [cpusFieldAccepts]
  refine ⟨key v, ?_⟩
  intro x hx
  by_contra hacc
  rw [Bool.not_eq_false] at hacc
  rcases (key (some x)).1 hacc with h | ⟨y, hy, h0, h3⟩
  · exact Option.noConfusion h
  · obtain rfl : y = x := (Option.some.inj hy).symm
    rcases hx with h | h
    · exact absurd h0 (not_le.mpr h)
    · exact absurd h3 (not_le.mpr h)

/-- C6 witness: `4` is above the bound and rejected. -/
theorem cpus_bounds_witness :
    ((4 : ℚ) < 0 ∨ (3 : ℚ) < 4) ∧ cpusFieldAccepts (some 4) = false :=
  ⟨Or.inr (by norm_num), (cpus_bounds (some 4)).2 4 (Or.inr (by norm_num))⟩

theorem isPySpace_not_digit {c : Char} (h : isPySpace c = true) :
    isDigitChar c = false := by
  simp [isPySpace] at h
  rcases h with ((((h | h) | h) | h) | h) | h <;> subst h <;> decide

theorem memSuffix_shape {suf : List Char} (h : memSuffix suf = true) :
    ∃ c t, suf = c :: t ∧ isDigitChar c = false ∧ isPySpace c = false := by
  simp [memSuffix] at h
  rcases h with ((((h | h) | h) | h) | h) | h <;> subst h <;>
    exact ⟨_, _, rfl, by decide, by decide⟩

/-- The memory-limit regex scanner agrees with the decomposition-based
reading of `^(\d+(\s*[KMG]i?B)?)?$`. -/
theorem memRegexMatch_iff (l : List Char) :
    memRegexMatch l = true ↔ memSpecProp l := by
  constructor
  · intro h
    simp only [memRegexMatch, Bool.or_eq_true, Bool.and_eq_true,
      Bool.not_eq_true'] at h
    rcases h with he | ⟨hds, hrest⟩
    · left
      cases l with
      | nil => rfl
      | cons c t => simp at he
    ·
      refine Or.inr ⟨l.takeWhile isDigitChar, l.dropWhile isDigitChar,
        (List.takeWhile_append_dropWhile isDigitChar l).symm, ?_, ?_, ?_⟩
      · intro hnil
        rw [hnil] at hds
        simp at hds
      · intro c hc
        exact List.mem_takeWhile_imp hc
      · rcases hrest with he | hsuf
        · left
          cases hd : l.dropWhile isDigitChar with
          | nil => rfl
          | cons c t => rw [hd] at he; simp at he
        · exact Or.inr ⟨(l.dropWhile isDigitChar).takeWhile isPySpace,
            (l.dropWhile isDigitChar).dropWhile isPySpace,
            (List.takeWhile_append_dropWhile isPySpace _).symm,
            fun c hc => List.mem_takeWhile_imp hc, hsuf⟩
  · intro h
    rcases h with rfl | ⟨ds, rest, rfl, hds, hdig, hrest⟩
    · decide
    · rcases hrest with rfl | ⟨ws, suf, rfl, hws, hsuf⟩
      · have hdrop : ds.dropWhile isDigitChar = [] :=
          List.dropWhile_eq_nil_iff.mpr hdig
        cases ds with
        | nil => exact absurd rfl hds
        | cons d dt =>
          have hd : isDigitChar d = true := hdig d (by simp)
          simp [memRegexMatch, List.takeWhile_cons_of_pos hd, hdrop]
      · obtain ⟨c0, t0, rfl, hc0d, hc0s⟩ := memSuffix_shape hsuf
        have hrest_head : ∃ r rt, ws ++ c0 :: t0 = r :: rt ∧ isDigitChar r = false := by
          cases ws with
          | nil => exact ⟨c0, t0, rfl, hc0d⟩
          | cons w wt =>
            exact ⟨w, wt ++ c0 :: t0, rfl, isPySpace_not_digit (hws w (by simp))⟩
        obtain ⟨r, rt, hre, hrd⟩ := hrest_head
        have htake : (ds ++ (ws ++ c0 :: t0)).takeWhile isDigitChar = ds := by
          rw [List.takeWhile_append_of_pos hdig, hre,
            List.takeWhile_cons_of_neg (by simp [hrd])]
          simp
        have hdrop : (ds ++ (ws ++ c0 :: t0)).dropWhile isDigitChar =
            ws ++ c0 :: t0 := by
          rw [List.dropWhile_append_of_pos hdig, hre,
            List.dropWhile_cons_of_neg (by simp [hrd])]
        have hdrop2 : (ws ++ c0 :: t0).dropWhile isPySpace = c0 :: t0 := by
          rw [List.dropWhile_append_of_pos hws,
            List.dropWhile_cons_of_neg (by simp [hc0s])]
        cases ds with
        | nil => exact absurd rfl hds
        | cons d dt =>
          simp only [memRegexMatch, htake, hdrop, hdrop2]
          simp [hsuf]

/-- C5 -- The memory limit validator accepts a string exactly when its
length is at most 10 and it is empty or a nonempty digit sequence,
optionally followed by optional whitespace and exactly one of the six
suffixes `KiB`, `MiB`, `GiB`, `KB`, `MB`, `GB`; a bare digit sequence
with no suffix is accepted. -/
theorem mem_limit_characterization (s : String) :
    memLimitAccepts s = true ↔ s.data.length ≤ 10 ∧ memSpecProp s.data := by
  unfold memLimitAccepts
  rw [Bool.and_eq_true, decide_eq_true_iff, memRegexMatch_iff]

end Director.SitesForms
